import Mathlib

namespace AumTracker

/-! # Shallow embedding of the `SolanaService` ingestion engine

Verification development for the rate-limited batch ingestion engine of
the aum-tracker repository.  JS `number` values are modelled as exact
rationals (`Rat`), lamport amounts as `Int`, asynchronous control flow is
sequentialised, the relational cache is an explicit `DB` record threaded
through the stateful operations, and each fallible provider call is an
`Except String` outcome supplied by an environment record `Env` (the
`String` is the raised error's message). -/

/-! ## Retry executor (`withRetry`) -/

/-- The body of `withRetry`'s `for (let attempt = 0; attempt < maxRetries;
attempt++)` loop: try the operation; on success return its value; on a
failure at the last attempt re-throw the error; otherwise sleep
`baseDelay * 2 ^ attempt` and continue with the next attempt.  `op i` is the
outcome of attempt `i`; the second component collects the backoff delays
slept, in order.  The final `throw new Error("All retry attempts failed")`
after the loop is the `else` branch (reachable only when `maxRetries = 0`). -/
def withRetryGo (op : Nat → Except String α) (maxRetries baseDelay attempt : Nat) :
    Except String α × List Nat :=
  if _h : attempt < maxRetries then
    match op attempt with
    | Except.ok v => (Except.ok v, [])
    | Except.error e =>
      if attempt = maxRetries - 1 then (Except.error e, [])
      else
        let rest := withRetryGo op maxRetries baseDelay (attempt + 1)
        (rest.1, baseDelay * 2 ^ attempt :: rest.2)
  else (Except.error "All retry attempts failed", [])
termination_by maxRetries - attempt
decreasing_by omega

/-- `withRetry(operation, maxRetries, baseDelay)` starts the attempt loop at
attempt 0. -/
def withRetry (op : Nat → Except String α) (maxRetries baseDelay : Nat) :
    Except String α × List Nat :=
  withRetryGo op maxRetries baseDelay 0

theorem withRetryGo_ok (op : Nat → Except String α) (m b : Nat) :
    ∀ k j v, j + k < m →
      (∀ i, j ≤ i → i < j + k → ∃ e, op i = Except.error e) →
      op (j + k) = Except.ok v →
      withRetryGo op m b j =
        (Except.ok v, (List.range k).map (fun i => b * 2 ^ (j + i))) := by
  intro k
  induction k with
  | zero =>
    intro j v hm hfail hok
    rw [withRetryGo]
    simp only [Nat.add_zero] at hm hok
    rw [dif_pos hm, hok]
    simp
  | succ k ih =>
    intro j v hm hfail hok
    obtain ⟨e, he⟩ := hfail j le_rfl (by omega)
    have hjm : j < m := by omega
    have hne : j ≠ m - 1 := by omega
    rw [withRetryGo, dif_pos hjm, he]
    simp only [if_neg hne]
    have hrec := ih (j + 1) v (by omega)
      (fun i h1 h2 => hfail i (by omega) (by omega))
      (by rw [show j + 1 + k = j + (k + 1) by omega] at *; exact hok)
    rw [hrec]
    simp only [List.range_succ_eq_map, List.map_cons, List.map_map, Nat.add_zero,
      Prod.mk.injEq, true_and]
    refine congrArg _ ?_
    refine List.map_congr_left (fun i _ => ?_)
    simp only [Function.comp_apply]
    rw [show j + (i + 1) = j + 1 + i by omega]

theorem withRetryGo_all_fail (op : Nat → Except String α) (m b : Nat)
    (f : Nat → String) :
    ∀ n j, j + n + 1 = m →
      (∀ i, j ≤ i → i < m → op i = Except.error (f i)) →
      (withRetryGo op m b j).1 = Except.error (f (m - 1)) := by
  intro n
  induction n with
  | zero =>
    intro j hm hfail
    have hj : j < m := by omega
    rw [withRetryGo, dif_pos hj, hfail j le_rfl hj]
    simp only [if_pos (by omega : j = m - 1)]
    rw [show j = m - 1 by omega]
  | succ n ih =>
    intro j hm hfail
    have hj : j < m := by omega
    rw [withRetryGo, dif_pos hj, hfail j le_rfl hj]
    simp only [if_neg (by omega : ¬ j = m - 1)]
    exact ih (j + 1) (by omega) (fun i h1 h2 => hfail i (by omega) h2)

/-- C1: with maxAttempts = 3 and baseDelay = 1000 ms, an operation failing
exactly k < 3 times and then succeeding makes `withRetry` return the success
value after exactly the k backoff delays 1000 · 2^i ms (i = 0, …, k-1 —
i.e. 1 s then 2 s), so at most k delays; an operation failing on all 3
attempts makes `withRetry` re-raise the final (third) failure unmodified. -/
theorem c1_retry_executor (op : Nat → Except String Nat) :
    (∀ k v, k < 3 → (∀ i, i < k → ∃ e, op i = Except.error e) →
      op k = Except.ok v →
      withRetry op 3 1000 =
        (Except.ok v, (List.range k).map (fun i => 1000 * 2 ^ i))) ∧
    (∀ e₀ e₁ e₂, op 0 = Except.error e₀ → op 1 = Except.error e₁ →
      op 2 = Except.error e₂ →
      (withRetry op 3 1000).1 = Except.error e₂) := by
  constructor
  · intro k v hk hfail hok
    have h := withRetryGo_ok op 3 1000 k 0 v (by omega)
      (fun i h1 h2 => hfail i (by omega)) (by simpa using hok)
    simpa [withRetry] using h
  · intro e₀ e₁ e₂ h0 h1 h2
    have h := withRetryGo_all_fail op 3 1000
      (fun i => if i = 0 then e₀ else if i = 1 then e₁ else e₂) 2 0 (by omega)
      (fun i hle hlt => by
        interval_cases i <;> simpa using by assumption)
    simpa [withRetry] using h

/-! ## Fetch queue (`addToQueue` / `processQueue`) -/

/-- One event of the fetch queue's processing loop: executing a dequeued
operation (recording the outcome that settles its submitter's promise), or
sleeping the inter-operation rate-limit delay. -/
inductive QEvent where
  | run : Except String Nat → QEvent
  | sleep : Nat → QEvent

def QEvent.result? : QEvent → Option (Except String Nat)
  | QEvent.run r => some r
  | QEvent.sleep _ => none

def QEvent.isSleep : QEvent → Bool
  | QEvent.run _ => false
  | QEvent.sleep _ => true

/-- `rateLimitDelay = 100` ms, the configured minimum delay between
consecutive queue operations. -/
def rateLimitDelay : Nat := 100

/-- The `processQueue` while-loop: shift the next operation off the queue,
execute it (a failure is caught and logged, it does not stop the loop), and
if the queue is still non-empty sleep `rateLimitDelay` before the next
iteration.  The queue holds the submitted operations in push order; each
element is the outcome with which that submitter's promise settles. -/
def processQueueTrace (d : Nat) : List (Except String Nat) → List QEvent
  | [] => []
  | op :: rest =>
    QEvent.run op ::
      (match rest with
       | [] => []
       | op2 :: rest2 => QEvent.sleep d :: processQueueTrace d (op2 :: rest2))

theorem processQueueTrace_eq_intersperse (d : Nat) (ops : List (Except String Nat)) :
    processQueueTrace d ops = List.intersperse (QEvent.sleep d) (ops.map QEvent.run) := by
  induction ops with
  | nil => rfl
  | cons a t ih =>
    cases t with
    | nil => rfl
    | cons b t2 =>
      rw [processQueueTrace, ih]
      rfl

theorem processQueueTrace_results (d : Nat) (ops : List (Except String Nat)) :
    (processQueueTrace d ops).filterMap QEvent.result? = ops := by
  induction ops with
  | nil => rfl
  | cons a t ih =>
    cases t with
    | nil => rfl
    | cons b t2 =>
      rw [processQueueTrace]
      simp only [List.filterMap_cons, QEvent.result?]
      rw [ih]

theorem processQueueTrace_sleeps (d : Nat) (ops : List (Except String Nat)) :
    ((processQueueTrace d ops).filter QEvent.isSleep).length = ops.length - 1 := by
  induction ops with
  | nil => rfl
  | cons a t ih =>
    cases t with
    | nil => rfl
    | cons b t2 =>
      rw [processQueueTrace]
      simp only [List.filter_cons, QEvent.isSleep, List.length_cons]
      simp only [List.length_cons] at ih
      simp [ih]

/-- C2: the fetch queue executes the submitted operations one at a time in
strict FIFO submission order — the processing trace is exactly the submitted
operations interleaved with single sleeps of the 100 ms rate-limit delay —
so the i-th executed outcome is the i-th submitter's own result (or error),
processing N operations incurs exactly N-1 ≥ N-1 inter-operation delays, and
a failed operation (an `Except.error` outcome) does not stop the queue:
every later operation still appears in the trace. -/
theorem c2_fetch_queue (ops : List (Except String Nat)) :
    processQueueTrace rateLimitDelay ops =
      List.intersperse (QEvent.sleep 100) (ops.map QEvent.run) ∧
    (processQueueTrace rateLimitDelay ops).filterMap QEvent.result? = ops ∧
    ((processQueueTrace rateLimitDelay ops).filter QEvent.isSleep).length
      = ops.length - 1 :=
  ⟨processQueueTrace_eq_intersperse rateLimitDelay ops,
   processQueueTrace_results rateLimitDelay ops,
   processQueueTrace_sleeps rateLimitDelay ops⟩

/-! ## Cache store data model (the `db` collaborator's rows) -/

/-- A row of the append-only fetch audit log (`insertFetchLog`).
Timestamps are abstract ticks. -/
structure FetchLogEntry where
  wallet_address : String
  timestamp : Nat
  operation : String
  status : String
  error_details : Option String
  response_time_ms : Nat

/-- A token price row (`upsertTokenPrice`), keyed by mint. -/
structure TokenPrice where
  mint : String
  symbol : String
  name : String
  price : Rat
  price_change_24h : Option Rat
  market_cap : Option Rat
  image_url : Option String
  last_updated : Nat
  source : String

/-- A token holding as produced by `getTokenAccounts` and enriched by
`getWalletData` (interface `TokenAccount`). -/
structure TokenAccount where
  mint : String
  amount : Rat
  decimals : Nat
  symbol : Option String
  name : Option String
  usdValue : Option Rat

/-- A wallet balance row (`upsertWalletBalance`), keyed by wallet address.
The source stores the holdings JSON-serialised (`JSON.stringify(tokens)`,
`"[]"` on the error path); the serialised string is modelled by the list it
encodes. -/
structure WalletRecord where
  wallet_address : String
  wallet_id : String
  sol_balance : Rat
  tokens : List TokenAccount
  last_updated : Nat
  fetch_status : String
  error_message : Option String
  retry_count : Nat

/-- Replace the first row with the given key, or append the row:
single-row upsert keyed by a natural unique key. -/
def upsertBy (key : β → String) (row : β) : List β → List β
  | [] => [row]
  | r :: rs => if key r = key row then row :: rs else r :: upsertBy key row rs

/-- The relational cache: audit log plus the two upserted tables. -/
structure DB where
  fetchLogs : List FetchLogEntry
  tokenPrices : List TokenPrice
  walletBalances : List WalletRecord

def DB.insertFetchLog (db : DB) (e : FetchLogEntry) : DB :=
  { db with fetchLogs := db.fetchLogs ++ [e] }

def DB.upsertTokenPrice (db : DB) (p : TokenPrice) : DB :=
  { db with tokenPrices := upsertBy TokenPrice.mint p db.tokenPrices }

def DB.upsertWalletBalance (db : DB) (w : WalletRecord) : DB :=
  { db with walletBalances := upsertBy WalletRecord.wallet_address w db.walletBalances }

/-- `db.getAllTokenPrices().find(p => p.mint === m)`. -/
def DB.findTokenPrice (db : DB) (mint : String) : Option TokenPrice :=
  db.tokenPrices.find? (fun p => p.mint == mint)

/-- `db.walletBalances` lookup by address (first row with the key;
`upsertBy` keeps at most one). -/
def DB.findWalletBalance (db : DB) (address : String) : Option WalletRecord :=
  db.walletBalances.find? (fun w => w.wallet_address == address)

/-! ## Batch orchestrator (`processWalletBatch`) -/

/-- A `{ id, address }` entry of the wallet list fed to the orchestrator. -/
structure WalletRef where
  id : String
  address : String

/-- The orchestrator's accumulated result object. -/
structure BatchResult where
  successful : Nat
  failed : Nat
  errors : List String

/-- `wallets.slice(i, i + batchSize)` chunking of the orchestrator's
`for (let i = 0; i < wallets.length; i += batchSize)` loop: fixed-size
chunks, the last possibly smaller.  (With `batchSize = 0` the source loop
would never advance; the model returns no chunks, and every theorem about
chunking assumes `0 < batchSize`.) -/
def chunksGo (k : Nat) : Nat → List α → List (List α)
  | _, [] => []
  | 0, _ :: _ => []
  | fuel + 1, x :: rest => (x :: rest).take k :: chunksGo k fuel ((x :: rest).drop k)

/-- `chunks k xs`: the loop runs at most `xs.length` iterations (`k > 0`
consumes at least one element per iteration), so `xs.length` is enough
fuel. -/
def chunks (k : Nat) (xs : List α) : List (List α) :=
  if k = 0 then [] else chunksGo k xs.length xs

theorem chunksGo_fuel (k : Nat) (hk : 0 < k) :
    ∀ n (fuel : Nat) (xs : List α), xs.length ≤ n → xs.length ≤ fuel →
      chunksGo k fuel xs = chunksGo k xs.length xs := by
  intro n
  induction n with
  | zero =>
    intro fuel xs h1 h2
    have hx : xs = [] := List.length_eq_zero.mp (by omega)
    subst hx
    cases fuel <;> rfl
  | succ n ih =>
    intro fuel xs h1 h2
    cases xs with
    | nil => cases fuel <;> rfl
    | cons x rest =>
      cases fuel with
      | zero => simp at h2
      | succ f =>
        simp only [List.length_cons, chunksGo]
        congr 1
        have hl1 : rest.length + 1 ≤ n + 1 := by simpa using h1
        have hl2 : rest.length + 1 ≤ f + 1 := by simpa using h2
        have hd : ((x :: rest).drop k).length ≤ n := by
          simp only [List.length_drop, List.length_cons]
          omega
        have hdf : ((x :: rest).drop k).length ≤ f := by
          simp only [List.length_drop, List.length_cons]
          omega
        have hdr : ((x :: rest).drop k).length ≤ rest.length := by
          simp only [List.length_drop, List.length_cons]
          omega
        rw [ih f _ hd hdf, ih rest.length _ hd hdr]

theorem chunks_eq (k : Nat) (xs : List α) :
    chunks k xs
      = if _h : xs.length = 0 ∨ k = 0 then []
        else xs.take k :: chunks k (xs.drop k) := by
  by_cases hk : k = 0
  · rw [chunks, if_pos hk, dif_pos (Or.inr hk)]
  · have hk0 : 0 < k := Nat.pos_of_ne_zero hk
    cases xs with
    | nil =>
      rw [chunks, if_neg hk]
      simp only [List.length_nil, dif_pos (Or.inl rfl)]
      rfl
    | cons x rest =>
      rw [chunks, if_neg hk, dif_neg (by push_neg; exact ⟨by simp, hk⟩)]
      simp only [List.length_cons, chunksGo]
      congr 1
      rw [chunks, if_neg hk]
      exact chunksGo_fuel k hk0 rest.length _ _
        (by simp only [List.length_drop, List.length_cons]; omega)
        (by simp only [List.length_drop, List.length_cons]; omega)

theorem chunks_cond_neg {k : Nat} {xs : List α} (hk : 0 < k) (hx : xs ≠ []) :
    ¬(xs.length = 0 ∨ k = 0) := by
  push_neg
  exact ⟨by simpa [List.length_eq_zero] using hx, by omega⟩

theorem chunks_join (k : Nat) (hk : 0 < k) (xs : List α) :
    (chunks k xs).flatten = xs := by
  have H : ∀ n (ys : List α), ys.length = n → (chunks k ys).flatten = ys := by
    intro n
    induction n using Nat.strong_induction_on with
    | _ n ih =>
      intro ys hl
      by_cases hy : ys = []
      · rw [chunks_eq]; simp [hy]
      · rw [chunks_eq, dif_neg (chunks_cond_neg hk hy)]
        have hlt : (ys.drop k).length < n := by
          subst hl
          simp only [List.length_drop]
          exact Nat.sub_lt (List.length_pos.mpr hy) hk
        rw [List.flatten_cons, ih _ hlt (ys.drop k) rfl, List.take_append_drop]
  exact H xs.length xs rfl

theorem chunks_eq_nil_iff (k : Nat) (hk : 0 < k) (xs : List α) :
    chunks k xs = [] ↔ xs = [] := by
  rw [chunks_eq]
  constructor
  · intro h
    by_contra hy
    rw [dif_neg (chunks_cond_neg hk hy)] at h
    exact List.cons_ne_nil _ _ h
  · intro h
    rw [dif_pos (Or.inl (by simp [h]))]

theorem chunks_shape (k : Nat) (hk : 0 < k) (xs : List α) :
    ∀ c ∈ chunks k xs, c ≠ [] ∧ c.length ≤ k := by
  have H : ∀ n (ys : List α), ys.length = n →
      ∀ c ∈ chunks k ys, c ≠ [] ∧ c.length ≤ k := by
    intro n
    induction n using Nat.strong_induction_on with
    | _ n ih =>
      intro ys hl c hc
      by_cases hy : ys = []
      · rw [chunks_eq, dif_pos (Or.inl (by simp [hy]))] at hc
        exact absurd hc (List.not_mem_nil c)
      · rw [chunks_eq, dif_neg (chunks_cond_neg hk hy)] at hc
        have hlt : (ys.drop k).length < n := by
          subst hl
          simp only [List.length_drop]
          exact Nat.sub_lt (List.length_pos.mpr hy) hk
        rcases List.mem_cons.mp hc with h | h
        · subst h
          refine ⟨fun h0 => ?_, by simp [List.length_take]⟩
          rcases List.take_eq_nil_iff.mp h0 with h1 | h1
          · omega
          · exact hy h1
        · exact ih _ hlt (ys.drop k) rfl c h
  exact H xs.length xs rfl

theorem chunks_dropLast_full (k : Nat) (hk : 0 < k) (xs : List α) :
    ∀ c ∈ (chunks k xs).dropLast, c.length = k := by
  have H : ∀ n (ys : List α), ys.length = n →
      ∀ c ∈ (chunks k ys).dropLast, c.length = k := by
    intro n
    induction n using Nat.strong_induction_on with
    | _ n ih =>
      intro ys hl c hc
      by_cases hy : ys = []
      · rw [chunks_eq, dif_pos (Or.inl (by simp [hy]))] at hc
        exact absurd hc (List.not_mem_nil c)
      · rw [chunks_eq, dif_neg (chunks_cond_neg hk hy)] at hc
        by_cases hd : ys.drop k = []
        · rw [(chunks_eq_nil_iff k hk _).mpr hd] at hc
          exact absurd hc (List.not_mem_nil c)
        · have hck : chunks k (ys.drop k) ≠ [] := by
            rw [Ne, chunks_eq_nil_iff k hk]
            exact hd
          rw [List.dropLast_cons_of_ne_nil hck] at hc
          have hlt : (ys.drop k).length < n := by
            subst hl
            simp only [List.length_drop]
            exact Nat.sub_lt (List.length_pos.mpr hy) hk
          rcases List.mem_cons.mp hc with h | h
          · subst h
            have hklen : k < ys.length := by
              by_contra hge
              exact hd (List.drop_eq_nil_of_le (by omega))
            simp [List.length_take]
            omega
          · exact ih _ hlt (ys.drop k) rfl c h
  exact H xs.length xs rfl

/-- One iteration of the orchestrator's per-wallet pipeline dispatch:
`try { await getWalletData(wallet.address, wallet.id); results.successful++ }
catch (error) { results.failed++; results.errors.push(address + ": " + msg) }`.
A failing wallet never fails the chunk (`Promise.allSettled`). -/
def chunkStep (run : WalletRef → DB → Except String Unit × DB)
    (st : BatchResult × DB) (w : WalletRef) : BatchResult × DB :=
  match (run w st.2).1 with
  | Except.ok _ => ({ st.1 with successful := st.1.successful + 1 }, (run w st.2).2)
  | Except.error msg =>
    ({ st.1 with
       failed := st.1.failed + 1
       errors := st.1.errors ++ [w.address ++ ": " ++ msg] }, (run w st.2).2)

/-- `processWalletBatch(wallets, batchSize)`: chunk the wallet list, process
the chunks sequentially (each chunk fully settled before the next starts),
accumulating counts and error strings across chunks.  `run` is the
per-wallet pipeline (`getWalletData`); within one chunk the pipelines are
modelled in submission order (the counter updates commute; only the order of
`errors` entries within a chunk depends on completion order). -/
def processWalletBatch (run : WalletRef → DB → Except String Unit × DB)
    (wallets : List WalletRef) (batchSize : Nat) (db : DB) : BatchResult × DB :=
  (chunks batchSize wallets).foldl (fun st c => c.foldl (chunkStep run) st)
    ({ successful := 0, failed := 0, errors := [] }, db)

/-- The error-list entry a wallet contributes: none on success,
`"{address}: {message}"` on failure. -/
def errEntry (outcome : WalletRef → Except String Unit) (w : WalletRef) :
    Option String :=
  match outcome w with
  | Except.ok _ => none
  | Except.error msg => some (w.address ++ ": " ++ msg)

theorem chunkStep_foldl_spec (run : WalletRef → DB → Except String Unit × DB)
    (outcome : WalletRef → Except String Unit)
    (hout : ∀ w db2, (run w db2).1 = outcome w) :
    ∀ (ws : List WalletRef) (acc : BatchResult × DB),
      (ws.foldl (chunkStep run) acc).1.successful + (ws.foldl (chunkStep run) acc).1.failed
        = acc.1.successful + acc.1.failed + ws.length ∧
      (ws.foldl (chunkStep run) acc).1.errors
        = acc.1.errors ++ ws.filterMap (errEntry outcome) := by
  intro ws
  induction ws with
  | nil => intro acc; simp
  | cons w rest ih =>
    intro acc
    rw [List.foldl_cons]
    rcases houtw : outcome w with msg | v
    · have hstep : chunkStep run acc w
          = ({ acc.1 with
               failed := acc.1.failed + 1
               errors := acc.1.errors ++ [w.address ++ ": " ++ msg] },
             (run w acc.2).2) := by
        rw [chunkStep, hout w acc.2, houtw]
      obtain ⟨ih1, ih2⟩ := ih (chunkStep run acc w)
      rw [hstep] at ih1 ih2
      rw [hstep]
      refine ⟨by rw [ih1]; simp; omega, by rw [ih2]; simp [errEntry, houtw]⟩
    · have hstep : chunkStep run acc w
          = ({ acc.1 with successful := acc.1.successful + 1 }, (run w acc.2).2) := by
        rw [chunkStep, hout w acc.2, houtw]
      obtain ⟨ih1, ih2⟩ := ih (chunkStep run acc w)
      rw [hstep] at ih1 ih2
      rw [hstep]
      refine ⟨by rw [ih1]; simp; omega, by rw [ih2]; simp [errEntry, houtw]⟩

theorem foldl_chunks_eq_foldl_join (run : WalletRef → DB → Except String Unit × DB)
    (cs : List (List WalletRef)) :
    ∀ acc : BatchResult × DB,
      cs.foldl (fun st c => c.foldl (chunkStep run) st) acc
        = cs.flatten.foldl (chunkStep run) acc := by
  induction cs with
  | nil => intro acc; simp
  | cons c rest ih =>
    intro acc
    rw [List.foldl_cons, List.flatten_cons, List.foldl_append, ih]

theorem processWalletBatch_counts (run : WalletRef → DB → Except String Unit × DB)
    (outcome : WalletRef → Except String Unit) (wallets : List WalletRef)
    (batchSize : Nat) (db : DB) (hsz : 0 < batchSize)
    (hout : ∀ w db2, (run w db2).1 = outcome w) :
    (processWalletBatch run wallets batchSize db).1.successful +
      (processWalletBatch run wallets batchSize db).1.failed = wallets.length ∧
    (processWalletBatch run wallets batchSize db).1.errors
      = wallets.filterMap (errEntry outcome) := by
  have hb : processWalletBatch run wallets batchSize db
      = wallets.foldl (chunkStep run)
          ({ successful := 0, failed := 0, errors := [] }, db) := by
    rw [processWalletBatch, foldl_chunks_eq_foldl_join,
      chunks_join batchSize hsz wallets]
  obtain ⟨h1, h2⟩ := chunkStep_foldl_spec run outcome hout wallets
    ({ successful := 0, failed := 0, errors := [] }, db)
  constructor
  · rw [hb, h1]
    simp
  · rw [hb, h2]
    simp

/-- C3: the batch orchestrator partitions the wallet list into chunks whose
concatenation is the original list, every chunk is non-empty of size at most
`batchSize` and every chunk but the last has size exactly `batchSize`;
processing yields `successful + failed =` the total number of wallets, and
the error list contains exactly one `"{address}: {message}"` entry per
failing wallet, in order across all chunks — so a failure in one chunk does
not stop later chunks from contributing their results. -/
theorem c3_batch_orchestrator (run : WalletRef → DB → Except String Unit × DB)
    (outcome : WalletRef → Except String Unit)
    (wallets : List WalletRef) (batchSize : Nat) (db : DB)
    (hsz : 0 < batchSize)
    (hout : ∀ w db2, (run w db2).1 = outcome w) :
    (chunks batchSize wallets).flatten = wallets ∧
    (∀ c ∈ chunks batchSize wallets, c ≠ [] ∧ c.length ≤ batchSize) ∧
    (∀ c ∈ (chunks batchSize wallets).dropLast, c.length = batchSize) ∧
    (processWalletBatch run wallets batchSize db).1.successful +
      (processWalletBatch run wallets batchSize db).1.failed = wallets.length ∧
    (processWalletBatch run wallets batchSize db).1.errors
      = wallets.filterMap (errEntry outcome) := by
  obtain ⟨h1, h2⟩ := processWalletBatch_counts run outcome wallets batchSize db hsz hout
  exact ⟨chunks_join batchSize hsz wallets, chunks_shape batchSize hsz wallets,
    chunks_dropLast_full batchSize hsz wallets, h1, h2⟩

/-- The empty cache. -/
def emptyDB : DB := { fetchLogs := [], tokenPrices := [], walletBalances := [] }

/-! ## Provider environment -/

/-- A parsed token account from `getParsedTokenAccountsByOwner`
(`account.data.parsed.info`): mint, decimal-adjusted `uiAmount` and the
token's on-chain decimals.  Accounts whose `parsed` data is absent are
skipped by the source exactly like zero-amount ones, so the environment
lists only parsed accounts. -/
structure ParsedTokenAccount where
  mint : String
  uiAmount : Rat
  decimals : Nat

/-- One entry of the bulk Jupiter token catalog (`allTokens`): `address`
plus optional `symbol` / `name` / `logoURI`.  A JSON field that is absent —
or empty, which JS `||` treats the same way — is `none`. -/
structure CatalogToken where
  address : String
  symbol : Option String
  name : Option String
  logoURI : Option String

/-- The body of a per-mint `/token/{mint}` response. -/
structure TokenJson where
  symbol : Option String
  name : Option String
  logoURI : Option String

/-- Resolved metadata for one mint, after defaulting. -/
structure TokenMeta where
  symbol : String
  name : String
  logoURI : Option String

/-- Outcomes of the external calls one pipeline run makes.  An
`Except.error` stands both for a thrown error and, for HTTP fetches, a
`!response.ok` response — the source takes the same failure path for both.
`rpcBalance` / `rpcTokenAccounts` are the net outcomes of the queued,
retried, fallback-wrapped RPC calls; `priceQuote q` is the parsed
`data` object of the price endpoint queried with the joined ids `q`
(value `none` models a missing `price` field, parsed as `"0"`). -/
structure Env where
  now : Nat
  latency : Nat
  rpcBalance : Except String Int
  rpcTokenAccounts : Except String (List ParsedTokenAccount)
  bulkCatalog : Except String (List CatalogToken)
  perMint : String → Except String TokenJson
  priceQuote : List String → Except String (List (String × Option Rat))

/-- JS-object / `Map` association lookup: the value of the last binding of
the key (later assignments overwrite earlier ones). -/
def assocGet (l : List (String × β)) (k : String) : Option β :=
  ((l.filter (fun p => p.1 == k)).getLast?).map Prod.snd

def SOL_MINT : String := "So11111111111111111111111111111111111111112"

/-! ## Balance fetcher (`getSOLBalance` / `getTokenAccounts`) -/

/-- `getSOLBalance(address)`: run the queued/retried balance RPC; on success
convert lamports to SOL (divide by 1e9) and append a success `FetchLogEntry`
(operation "balance", with the response latency); on failure append an error
entry carrying the message and re-raise.  A malformed address makes
`new PublicKey` throw inside the same `try`, taking the same catch path; it
is folded into `env.rpcBalance`. -/
def getSOLBalance (env : Env) (address : String) (db : DB) :
    Except String Rat × DB :=
  match env.rpcBalance with
  | Except.ok lamports =>
    (Except.ok ((lamports : Rat) / 1000000000),
     db.insertFetchLog
       { wallet_address := address
         timestamp := env.now
         operation := "balance"
         status := "success"
         error_details := none
         response_time_ms := env.latency })
  | Except.error e =>
    (Except.error e,
     db.insertFetchLog
       { wallet_address := address
         timestamp := env.now
         operation := "balance"
         status := "error"
         error_details := some e
         response_time_ms := env.latency })

/-- The token-account post-processing loop: keep accounts with positive
`uiAmount`, carrying mint, decimal-adjusted amount and real decimals. -/
def fetchedTokens (accounts : List ParsedTokenAccount) : List TokenAccount :=
  accounts.filterMap (fun a =>
    if 0 < a.uiAmount then
      some { mint := a.mint
             amount := a.uiAmount
             decimals := a.decimals
             symbol := none
             name := none
             usdValue := none }
    else none)

/-- `getTokenAccounts(address)`: run the queued/retried enumeration over
both token-program namespaces; on success filter to positive balances and
append a success `FetchLogEntry` (operation "tokens"); on failure append an
error entry and re-raise. -/
def getTokenAccounts (env : Env) (address : String) (db : DB) :
    Except String (List TokenAccount) × DB :=
  match env.rpcTokenAccounts with
  | Except.ok accounts =>
    (Except.ok (fetchedTokens accounts),
     db.insertFetchLog
       { wallet_address := address
         timestamp := env.now
         operation := "tokens"
         status := "success"
         error_details := none
         response_time_ms := env.latency })
  | Except.error e =>
    (Except.error e,
     db.insertFetchLog
       { wallet_address := address
         timestamp := env.now
         operation := "tokens"
         status := "error"
         error_details := some e
         response_time_ms := env.latency })

/-! ## Metadata resolver (`getTokenMetadata`) -/

/-- `symbol || "Unknown"`, `name || "Unknown Token"`, `logoURI || null`. -/
def applyDefaults (symbol name logoURI : Option String) : TokenMeta :=
  { symbol := symbol.getD "Unknown"
    name := name.getD "Unknown Token"
    logoURI := logoURI }

/-- The bulk path's `tokenMap.get(mint)`: the last catalog entry with the
given address (`Map.set` overwrites), defaults applied. -/
def tokenMapGet (cat : List CatalogToken) (mint : String) : Option TokenMeta :=
  ((cat.filter (fun t => t.address == mint)).getLast?).map
    (fun t => applyDefaults t.symbol t.name t.logoURI)

/-- The default metadata recorded for a mint missing from the catalog. -/
def unknownMeta : TokenMeta :=
  { symbol := "Unknown", name := "Unknown Token", logoURI := none }

/-- The per-mint fallback request: on a successful `/token/{mint}` response
the defaulted metadata; on a thrown fetch error or a `!response.ok` status
`none` (`{ mint, data: null }`, skipped when collecting). -/
def perMintResult (env : Env) (mint : String) : Option TokenMeta :=
  match env.perMint mint with
  | Except.ok d => some (applyDefaults d.symbol d.name d.logoURI)
  | Except.error _ => none

/-- The fallback loop over mint chunks: within a chunk every mint is
requested (`Promise.allSettled` keeps batch order) and fulfilled non-null
results are recorded; a 100 ms sleep separates consecutive chunks
(`if (i + batchSize < mints.length)`).  Returns the collected metadata
assoc list and the number of inter-chunk sleeps. -/
def metadataFallbackGo (env : Env) : List (List String) → List (String × TokenMeta) × Nat
  | [] => ([], 0)
  | c :: rest =>
    let rs := c.filterMap (fun m => (perMintResult env m).map (fun d => (m, d)))
    let tail := metadataFallbackGo env rest
    (rs ++ tail.1, (match rest with | [] => 0 | _ :: _ => 1) + tail.2)

/-- `getTokenMetadata(mints)`: empty input returns at once; otherwise one
bulk catalog fetch serves every requested mint, defaulting mints missing
from the catalog to the sentinel rather than failing; on bulk failure fall
back to per-mint lookups in chunks of 10 with a 100 ms inter-chunk delay.
Returns the metadata assoc list (in insertion order) and the number of
inter-chunk sleeps; the function never raises. -/
def getTokenMetadata (env : Env) (mints : List String) :
    List (String × TokenMeta) × Nat :=
  if mints.isEmpty then ([], 0)
  else
    match env.bulkCatalog with
    | Except.ok cat =>
      (mints.map (fun m => (m, (tokenMapGet cat m).getD unknownMeta)), 0)
    | Except.error _ => metadataFallbackGo env (chunks 10 mints)

/-! ## Price resolution (`getSOLPrice` / `getTokenPrices`) -/

def solLogoURI : String :=
  "https://raw.githubusercontent.com/solana-labs/token-list/main/assets/mainnet/So11111111111111111111111111111111111111112/logo.png"

/-- `getSOLPrice()`: query the price endpoint with `?ids=SOL_MINT` and parse
`data.data?.[SOL_MINT]?.price || "0"`.  If the parsed price is positive,
upsert it (symbol "SOL", name "Solana", source "jupiter", fresh timestamp)
and return it.  On a thrown fetch error or `!response.ok`, return the
cached SOL price when one is cached and non-zero (JS `cached?.price ||
150`), else the hardcoded fallback 150.  The function never raises. -/
def getSOLPrice (env : Env) (db : DB) : Rat × DB :=
  match env.priceQuote [SOL_MINT] with
  | Except.ok entries =>
    let solPrice := ((assocGet entries SOL_MINT).getD none).getD 0
    if 0 < solPrice then
      (solPrice,
       db.upsertTokenPrice
         { mint := SOL_MINT
           symbol := "SOL"
           name := "Solana"
           price := solPrice
           price_change_24h := none
           market_cap := none
           image_url := some solLogoURI
           last_updated := env.now
           source := "jupiter" })
    else (solPrice, db)
  | Except.error _ =>
    match db.findTokenPrice SOL_MINT with
    | some cached => (if cached.price = 0 then 150 else cached.price, db)
    | none => (150, db)

/-- `[...new Set(l)]`: first-occurrence deduplication preserving order. -/
def dedupFirstGo (seen : List String) : List String → List String
  | [] => []
  | x :: xs =>
    if x ∈ seen then dedupFirstGo seen xs else x :: dedupFirstGo (x :: seen) xs

def dedupFirst (l : List String) : List String := dedupFirstGo [] l

/-- A resolved price entry of the returned `PriceData` object. -/
structure PriceEntry where
  price : Rat
  symbol : String
  name : String
  change24h : Option Rat
  marketCap : Option Rat

/-- What one `getTokenPrices` run produced: the returned value (or raised
error), the updated cache, and the id lists of the queries actually sent to
the price endpoint. -/
structure PricesResult where
  result : Except String (List (String × PriceEntry))
  db : DB
  queries : List (List String)

/-- The loop's `metadata[mint] || { symbol: mint === SOL_MINT ? "SOL" :
"Unknown", name: ... }` fallback. -/
def priceMetaOf (metadata : List (String × TokenMeta)) (mint : String) : TokenMeta :=
  (assocGet metadata mint).getD
    (if mint = SOL_MINT then { symbol := "SOL", name := "Solana", logoURI := none }
     else { symbol := "Unknown", name := "Unknown Token", logoURI := none })

/-- The `TokenPrice` row `db.upsertTokenPrice` receives for one entry of
`pricesData.data`: keyed by the entry's mint, priced at
`parseFloat(info.price || "0")`, tagged `source: "jupiter"` with a fresh
timestamp. -/
def tokenPriceRow (env : Env) (metadata : List (String × TokenMeta))
    (e : String × Option Rat) : TokenPrice :=
  { mint := e.1
    symbol := (priceMetaOf metadata e.1).symbol
    name := (priceMetaOf metadata e.1).name
    price := e.2.getD 0
    price_change_24h := none
    market_cap := none
    image_url := (priceMetaOf metadata e.1).logoURI
    last_updated := env.now
    source := "jupiter" }

/-- One iteration of the `Object.entries(pricesData.data)` loop: build the
returned price entry and upsert the `TokenPrice` row, falling back to
"SOL"/"Solana" or "Unknown"/"Unknown Token" when the metadata map has no
entry for the mint. -/
def priceEntryStep (env : Env) (metadata : List (String × TokenMeta))
    (acc : List (String × PriceEntry) × DB) (e : String × Option Rat) :
    List (String × PriceEntry) × DB :=
  (acc.1 ++ [(e.1,
     { price := e.2.getD 0
       symbol := (priceMetaOf metadata e.1).symbol
       name := (priceMetaOf metadata e.1).name
       change24h := none
       marketCap := none })],
   acc.2.upsertTokenPrice (tokenPriceRow env metadata e))

/-- `getTokenPrices(mints)`: empty input returns at once (no query, no log);
otherwise the SOL mint is added to the requested mints
(`[...new Set([...mints, SOL_MINT])]`), metadata is resolved for the joined
set, and one price query is issued with all ids joined.  On success every
entry of the response is returned and upserted (keyed by mint, source
"jupiter", fresh timestamp) and a success audit row is logged; on failure an
error audit row is logged and the error re-raised. -/
def getTokenPrices (env : Env) (mints : List String) (db : DB) : PricesResult :=
  if mints.isEmpty then { result := Except.ok [], db := db, queries := [] }
  else
    let mintsWithSol := dedupFirst (mints ++ [SOL_MINT])
    let metadata := (getTokenMetadata env mintsWithSol).1
    match env.priceQuote mintsWithSol with
    | Except.ok entries =>
      let pd := entries.foldl (priceEntryStep env metadata) ([], db)
      { result := Except.ok pd.1
        db := pd.2.insertFetchLog
          { wallet_address := "system"
            timestamp := env.now
            operation := "prices"
            status := "success"
            error_details := none
            response_time_ms := env.latency }
        queries := [mintsWithSol] }
    | Except.error e =>
      { result := Except.error e
        db := db.insertFetchLog
          { wallet_address := "system"
            timestamp := env.now
            operation := "prices"
            status := "error"
            error_details := some e
            response_time_ms := env.latency }
        queries := [mintsWithSol] }

/-! ## Balance fetcher pipeline (`getWalletData`) -/

/-- The returned `WalletData` object. -/
structure WalletData where
  address : String
  solBalance : Rat
  tokens : List TokenAccount
  totalUsdValue : Rat
  lastUpdated : Nat

/-- The enhancement step: `symbol = metadata?.symbol || price?.symbol ||
"Unknown"`, same for `name`, and `usdValue = priceData ? amount * price :
0`. -/
def enhanceToken (metadata : List (String × TokenMeta))
    (prices : List (String × PriceEntry)) (t : TokenAccount) : TokenAccount :=
  let tm := assocGet metadata t.mint
  let pd := assocGet prices t.mint
  { t with
    symbol := some (match tm with
      | some m => m.symbol
      | none => match pd with | some p => p.symbol | none => "Unknown")
    name := some (match tm with
      | some m => m.name
      | none => match pd with | some p => p.name | none => "Unknown Token")
    usdValue := some (match pd with
      | some p => t.amount * p.price
      | none => 0) }

/-- The catch branch's upsert row: status "error", zero native balance,
empty (serialised `"[]"`) holdings, the error message recorded. -/
def errorWalletRecord (env : Env) (address walletId msg : String) : WalletRecord :=
  { wallet_address := address
    wallet_id := walletId
    sol_balance := 0
    tokens := []
    last_updated := env.now
    fetch_status := "error"
    error_message := some msg
    retry_count := 0 }

/-- `getWalletData(address, walletId)`: fetch SOL balance and token accounts
(both run and both log, `Promise.all`), resolve metadata and prices for the
found mints, enhance the holdings, sum their USD values into
`totalUsdValue` (the native balance is not added), upsert the success row
and return; any failure along the way takes the catch branch: upsert the
error row and re-raise.  When both concurrent fetches fail, `Promise.all`
propagates whichever rejection settles it; the model deterministically
propagates the balance error. -/
def getWalletData (env : Env) (address walletId : String) (db : DB) :
    Except String WalletData × DB :=
  let bal := getSOLBalance env address db
  let toks := getTokenAccounts env address bal.2
  match bal.1, toks.1 with
  | Except.ok solBalance, Except.ok tokenAccounts =>
    let mints := tokenAccounts.map TokenAccount.mint
    let metadata := (getTokenMetadata env mints).1
    let pricesRes := getTokenPrices env mints toks.2
    (match pricesRes.result with
     | Except.ok prices =>
       let enhancedTokens := tokenAccounts.map (enhanceToken metadata prices)
       let totalUsdValue := enhancedTokens.foldl (fun s t => s + t.usdValue.getD 0) 0
       (Except.ok
          { address := address
            solBalance := solBalance
            tokens := enhancedTokens
            totalUsdValue := totalUsdValue
            lastUpdated := env.now },
        pricesRes.db.upsertWalletBalance
          { wallet_address := address
            wallet_id := walletId
            sol_balance := solBalance
            tokens := enhancedTokens
            last_updated := env.now
            fetch_status := "success"
            error_message := none
            retry_count := 0 })
     | Except.error e =>
       (Except.error e,
        pricesRes.db.upsertWalletBalance (errorWalletRecord env address walletId e)))
  | Except.error e, _ =>
    (Except.error e, toks.2.upsertWalletBalance (errorWalletRecord env address walletId e))
  | Except.ok _, Except.error e =>
    (Except.error e, toks.2.upsertWalletBalance (errorWalletRecord env address walletId e))

/-- Twelve wallets for the 12-wallet / batchSize-5 orchestration scenario. -/
def scenarioWallets : List WalletRef :=
  [⟨"1", "w1"⟩, ⟨"2", "w2"⟩, ⟨"3", "w3"⟩, ⟨"4", "w4"⟩, ⟨"5", "w5"⟩,
   ⟨"6", "w6"⟩, ⟨"7", "w7"⟩, ⟨"8", "w8"⟩, ⟨"9", "w9"⟩, ⟨"10", "w10"⟩,
   ⟨"11", "w11"⟩, ⟨"12", "w12"⟩]

/-- In the scenario, only wallet `w12` (in the last chunk of 2) fails. -/
def scenarioOutcome (w : WalletRef) : Except String Unit :=
  if w.address = "w12" then Except.error "fetch failed" else Except.ok ()

def scenarioRun (w : WalletRef) (db : DB) : Except String Unit × DB :=
  (scenarioOutcome w, db)

/-- Witness for C3 at the spec's 12-wallet scenario: chunks of sizes
(5, 5, 2), `successful + failed = 12`, and one error entry for the one
failing wallet of the last chunk. -/
theorem c3_batch_orchestrator_witness :
    (chunks 5 scenarioWallets).map List.length = [5, 5, 2] ∧
    (processWalletBatch scenarioRun scenarioWallets 5 emptyDB).1.successful +
      (processWalletBatch scenarioRun scenarioWallets 5 emptyDB).1.failed = 12 ∧
    (processWalletBatch scenarioRun scenarioWallets 5 emptyDB).1.errors
      = ["w12: fetch failed"] := by
  have h := c3_batch_orchestrator scenarioRun scenarioOutcome scenarioWallets 5
    emptyDB (by decide) (fun w db2 => rfl)
  refine ⟨by decide, ?_, ?_⟩
  · rw [h.2.2.2.1]
    rfl
  · rw [h.2.2.2.2]
    rfl

/-! ## Store lemmas -/

theorem upsertBy_find_self (key : β → String) (row : β) :
    ∀ l : List β, (upsertBy key row l).find? (fun r => key r == key row) = some row := by
  intro l
  induction l with
  | nil => simp [upsertBy, List.find?]
  | cons r rs ih =>
    rw [upsertBy]
    by_cases h : key r = key row
    · rw [if_pos h]
      simp [List.find?]
    · rw [if_neg h]
      rw [List.find?]
      have : (key r == key row) = false := by
        simpa using h
      rw [this]
      exact ih

theorem upsertBy_find_other (key : β → String) (row : β) (k : String)
    (hne : key row ≠ k) :
    ∀ l : List β, (upsertBy key row l).find? (fun r => key r == k)
      = l.find? (fun r => key r == k) := by
  intro l
  induction l with
  | nil =>
    simp only [upsertBy, List.find?]
    have : (key row == k) = false := by simpa using hne
    rw [this]
  | cons r rs ih =>
    rw [upsertBy]
    by_cases h : key r = key row
    · rw [if_pos h]
      rw [List.find?, List.find?]
      have hr : (key r == k) = false := by simpa using h ▸ hne
      have hrow : (key row == k) = false := by simpa using hne
      rw [hr, hrow]
    · rw [if_neg h]
      rw [List.find?, List.find?]
      cases hrk : (key r == k) with
      | true => rfl
      | false => exact ih

theorem DB.findTokenPrice_upsert_self (db : DB) (p : TokenPrice) :
    (db.upsertTokenPrice p).findTokenPrice p.mint = some p :=
  upsertBy_find_self TokenPrice.mint p db.tokenPrices

theorem DB.findTokenPrice_upsert_other (db : DB) (p : TokenPrice) (m : String)
    (hne : p.mint ≠ m) :
    (db.upsertTokenPrice p).findTokenPrice m = db.findTokenPrice m :=
  upsertBy_find_other TokenPrice.mint p m hne db.tokenPrices

theorem DB.findTokenPrice_insertFetchLog (db : DB) (e : FetchLogEntry) (m : String) :
    (db.insertFetchLog e).findTokenPrice m = db.findTokenPrice m := rfl

theorem DB.findWalletBalance_upsert_self (db : DB) (w : WalletRecord) :
    (db.upsertWalletBalance w).findWalletBalance w.wallet_address = some w :=
  upsertBy_find_self WalletRecord.wallet_address w db.walletBalances

/-! ## Deduplication lemmas -/

theorem dedupFirstGo_mem :
    ∀ (l seen : List String) (x : String),
      x ∈ dedupFirstGo seen l ↔ x ∈ l ∧ x ∉ seen := by
  intro l
  induction l with
  | nil => intro seen x; simp [dedupFirstGo]
  | cons a rest ih =>
    intro seen x
    rw [dedupFirstGo]
    by_cases ha : a ∈ seen
    · rw [if_pos ha]
      rw [ih]
      constructor
      · rintro ⟨h1, h2⟩
        exact ⟨List.mem_cons_of_mem a h1, h2⟩
      · rintro ⟨h1, h2⟩
        rcases List.mem_cons.mp h1 with h | h
        · subst h; exact absurd ha h2
        · exact ⟨h, h2⟩
    · rw [if_neg ha]
      constructor
      · intro hx
        rcases List.mem_cons.mp hx with h | h
        · exact ⟨by rw [h]; exact List.mem_cons_self a rest, by rw [h]; exact ha⟩
        · obtain ⟨h1, h2⟩ := (ih (a :: seen) x).mp h
          exact ⟨List.mem_cons_of_mem a h1, fun hs => h2 (List.mem_cons_of_mem a hs)⟩
      · rintro ⟨h1, h2⟩
        rcases List.mem_cons.mp h1 with h | h
        · rw [h]; exact List.mem_cons_self a _
        · by_cases hxa : x = a
          · subst hxa; exact List.mem_cons_self x _
          · exact List.mem_cons_of_mem a
              ((ih (a :: seen) x).mpr ⟨h, by simp [hxa, h2]⟩)

theorem dedupFirstGo_nodup :
    ∀ (l seen : List String), (dedupFirstGo seen l).Nodup := by
  intro l
  induction l with
  | nil => intro seen; simp [dedupFirstGo]
  | cons a rest ih =>
    intro seen
    rw [dedupFirstGo]
    by_cases ha : a ∈ seen
    · rw [if_pos ha]; exact ih seen
    · rw [if_neg ha]
      refine List.nodup_cons.mpr ⟨?_, ih (a :: seen)⟩
      intro hmem
      exact ((dedupFirstGo_mem rest (a :: seen) a).mp hmem).2 (List.mem_cons_self a seen)

theorem dedupFirst_mem (l : List String) (x : String) :
    x ∈ dedupFirst l ↔ x ∈ l := by
  rw [dedupFirst, dedupFirstGo_mem]
  simp

theorem dedupFirst_nodup (l : List String) : (dedupFirst l).Nodup :=
  dedupFirstGo_nodup l []

/-! ## Metadata fallback lemmas -/

theorem metadataFallbackGo_fst (env : Env) :
    ∀ cs : List (List String),
      (metadataFallbackGo env cs).1
        = cs.flatten.filterMap
            (fun m => (perMintResult env m).map (fun d => (m, d))) := by
  intro cs
  induction cs with
  | nil => rfl
  | cons c rest ih =>
    simp only [metadataFallbackGo, List.flatten_cons, List.filterMap_append]
    rw [← ih]

theorem metadataFallbackGo_snd (env : Env) :
    ∀ cs : List (List String),
      (metadataFallbackGo env cs).2 = cs.length - 1 := by
  intro cs
  induction cs with
  | nil => rfl
  | cons c rest ih =>
    simp only [metadataFallbackGo]
    cases rest with
    | nil => rfl
    | cons c2 r2 =>
      simp only [List.length_cons]
      rw [ih]
      simp only [List.length_cons]
      omega

/-! ## C9: audit logging -/

/-- C9: every call to `getSOLBalance` and every call to `getTokenAccounts`
appends exactly one `FetchLogEntry` to the audit log — status "success" with
no error detail on the success path, status "error" with the error message
on the failure path, in both cases carrying the response latency — before
returning the value or re-raising the error; the log only grows (by exactly
one entry per call), so its length never decreases. -/
theorem c9_fetch_logging (env : Env) (address : String) (db : DB) :
    (∃ entry : FetchLogEntry,
      (getSOLBalance env address db).2.fetchLogs = db.fetchLogs ++ [entry] ∧
      entry.wallet_address = address ∧ entry.operation = "balance" ∧
      entry.response_time_ms = env.latency ∧
      (∀ v, (getSOLBalance env address db).1 = Except.ok v →
        entry.status = "success" ∧ entry.error_details = none) ∧
      (∀ e, (getSOLBalance env address db).1 = Except.error e →
        entry.status = "error" ∧ entry.error_details = some e)) ∧
    (∃ entry : FetchLogEntry,
      (getTokenAccounts env address db).2.fetchLogs = db.fetchLogs ++ [entry] ∧
      entry.wallet_address = address ∧ entry.operation = "tokens" ∧
      entry.response_time_ms = env.latency ∧
      (∀ v, (getTokenAccounts env address db).1 = Except.ok v →
        entry.status = "success" ∧ entry.error_details = none) ∧
      (∀ e, (getTokenAccounts env address db).1 = Except.error e →
        entry.status = "error" ∧ entry.error_details = some e)) ∧
    (getSOLBalance env address db).2.fetchLogs.length = db.fetchLogs.length + 1 ∧
    (getTokenAccounts env address db).2.fetchLogs.length = db.fetchLogs.length + 1 := by
  have hbal : ∃ entry : FetchLogEntry,
      (getSOLBalance env address db).2.fetchLogs = db.fetchLogs ++ [entry] ∧
      entry.wallet_address = address ∧ entry.operation = "balance" ∧
      entry.response_time_ms = env.latency ∧
      (∀ v, (getSOLBalance env address db).1 = Except.ok v →
        entry.status = "success" ∧ entry.error_details = none) ∧
      (∀ e, (getSOLBalance env address db).1 = Except.error e →
        entry.status = "error" ∧ entry.error_details = some e) := by
    rcases hb : env.rpcBalance with e | lam
    · refine ⟨{ wallet_address := address
                timestamp := env.now
                operation := "balance"
                status := "error"
                error_details := some e
                response_time_ms := env.latency },
        by simp [getSOLBalance, hb, DB.insertFetchLog], rfl, rfl, rfl, ?_, ?_⟩
      · intro v hv
        simp [getSOLBalance, hb] at hv
      · intro e2 he
        simp only [getSOLBalance, hb, Except.error.injEq] at he
        subst he
        exact ⟨rfl, rfl⟩
    · refine ⟨{ wallet_address := address
                timestamp := env.now
                operation := "balance"
                status := "success"
                error_details := none
                response_time_ms := env.latency },
        by simp [getSOLBalance, hb, DB.insertFetchLog], rfl, rfl, rfl, ?_, ?_⟩
      · intro v hv
        exact ⟨rfl, rfl⟩
      · intro e2 he
        simp [getSOLBalance, hb] at he
  have htok : ∃ entry : FetchLogEntry,
      (getTokenAccounts env address db).2.fetchLogs = db.fetchLogs ++ [entry] ∧
      entry.wallet_address = address ∧ entry.operation = "tokens" ∧
      entry.response_time_ms = env.latency ∧
      (∀ v, (getTokenAccounts env address db).1 = Except.ok v →
        entry.status = "success" ∧ entry.error_details = none) ∧
      (∀ e, (getTokenAccounts env address db).1 = Except.error e →
        entry.status = "error" ∧ entry.error_details = some e) := by
    rcases ht : env.rpcTokenAccounts with e | accs
    · refine ⟨{ wallet_address := address
                timestamp := env.now
                operation := "tokens"
                status := "error"
                error_details := some e
                response_time_ms := env.latency },
        by simp [getTokenAccounts, ht, DB.insertFetchLog], rfl, rfl, rfl, ?_, ?_⟩
      · intro v hv
        simp [getTokenAccounts, ht] at hv
      · intro e2 he
        simp only [getTokenAccounts, ht, Except.error.injEq] at he
        subst he
        exact ⟨rfl, rfl⟩
    · refine ⟨{ wallet_address := address
                timestamp := env.now
                operation := "tokens"
                status := "success"
                error_details := none
                response_time_ms := env.latency },
        by simp [getTokenAccounts, ht, DB.insertFetchLog], rfl, rfl, rfl, ?_, ?_⟩
      · intro v hv
        exact ⟨rfl, rfl⟩
      · intro e2 he
        simp [getTokenAccounts, ht] at he
  refine ⟨hbal, htok, ?_, ?_⟩
  · obtain ⟨entry, he, -⟩ := hbal
    rw [he]
    simp
  · obtain ⟨entry, he, -⟩ := htok
    rw [he]
    simp

/-! ## C4: pipeline failure handling -/

theorem priceEntryStep_foldl_fst (env : Env) (metadata : List (String × TokenMeta)) :
    ∀ (entries : List (String × Option Rat)) (l : List (String × PriceEntry)) (db db2 : DB),
      (entries.foldl (priceEntryStep env metadata) (l, db)).1
        = (entries.foldl (priceEntryStep env metadata) (l, db2)).1 := by
  intro entries
  induction entries with
  | nil => intro l db db2; rfl
  | cons e rest ih =>
    intro l db db2
    simp only [List.foldl_cons, priceEntryStep]
    exact ih _ _ _

/-- The value (or error) a `getTokenPrices` run returns, which depends only
on the environment and the requested mints, never on the cache state. -/
def getTokenPricesResult (env : Env) (mints : List String) :
    Except String (List (String × PriceEntry)) :=
  if mints.isEmpty then Except.ok []
  else
    let mintsWithSol := dedupFirst (mints ++ [SOL_MINT])
    let metadata := (getTokenMetadata env mintsWithSol).1
    match env.priceQuote mintsWithSol with
    | Except.ok entries =>
      Except.ok (entries.foldl (priceEntryStep env metadata) ([], emptyDB)).1
    | Except.error e => Except.error e

theorem getTokenPrices_result_eq (env : Env) (mints : List String) (db : DB) :
    (getTokenPrices env mints db).result = getTokenPricesResult env mints := by
  by_cases hm : mints.isEmpty
  · simp [getTokenPrices, getTokenPricesResult, hm]
  · simp only [getTokenPrices, getTokenPricesResult, if_neg hm]
    rcases hq : env.priceQuote (dedupFirst (mints ++ [SOL_MINT])) with e | entries
    · simp only [hq]
    · simp only [hq]
      exact congrArg Except.ok
        (priceEntryStep_foldl_fst env _ entries [] db emptyDB)

theorem getWalletData_fst_ignores_db (env : Env) (a i : String) (db db2 : DB) :
    (getWalletData env a i db).1 = (getWalletData env a i db2).1 := by
  rcases hb : env.rpcBalance with e | lam <;>
    rcases ht : env.rpcTokenAccounts with e2 | accs <;>
      simp only [getWalletData, getSOLBalance, getTokenAccounts, hb, ht]
  rw [getTokenPrices_result_eq, getTokenPrices_result_eq]
  rcases hres : getTokenPricesResult env (List.map TokenAccount.mint (fetchedTokens accs))
    with ep | prices <;> simp [hres]

/-- The orchestrator's per-wallet operation
(`await this.getWalletData(wallet.address, wallet.id)`); its returned value
is discarded, success/failure drives the counters.  `envOf` gives the
upstream world each wallet's calls observe. -/
def pipelineRun (envOf : String → Env) (w : WalletRef) (db : DB) :
    Except String Unit × DB :=
  ((getWalletData (envOf w.address) w.address w.id db).1.map (fun _ => ()),
   (getWalletData (envOf w.address) w.address w.id db).2)

/-- A wallet pipeline's success/failure, which is independent of the cache
state it starts from. -/
def pipelineOutcome (envOf : String → Env) (w : WalletRef) : Except String Unit :=
  (getWalletData (envOf w.address) w.address w.id emptyDB).1.map (fun _ => ())

theorem pipelineRun_fst (envOf : String → Env) (w : WalletRef) (db : DB) :
    (pipelineRun envOf w db).1 = pipelineOutcome envOf w := by
  rw [pipelineRun, pipelineOutcome,
    getWalletData_fst_ignores_db (envOf w.address) w.address w.id db emptyDB]

theorem findWalletBalance_upsert_error (db2 : DB) (env : Env)
    (address walletId e : String) :
    (db2.upsertWalletBalance (errorWalletRecord env address walletId e)).findWalletBalance
        address
      = some (errorWalletRecord env address walletId e) := by
  have h := DB.findWalletBalance_upsert_self db2 (errorWalletRecord env address walletId e)
  simpa [errorWalletRecord] using h

/-- C4: when a wallet's fetch pipeline fails after retry and fallback
exhaustion (`getWalletData` raises), the wallet's record is upserted with
fetch status "error", native balance 0, an empty holdings list and the
error message recorded, and the error is re-raised to the orchestrator,
which counts the wallet among `failed` with its single
`"{address}: {message}"` error entry while still processing every other
wallet of the batch (`successful + failed` still covers the whole list). -/
theorem c4_pipeline_failure (env : Env) (address walletId : String) (db : DB)
    (e : String)
    (hfail : (getWalletData env address walletId db).1 = Except.error e) :
    ((getWalletData env address walletId db).2.findWalletBalance address
        = some (errorWalletRecord env address walletId e) ∧
      (errorWalletRecord env address walletId e).fetch_status = "error" ∧
      (errorWalletRecord env address walletId e).sol_balance = 0 ∧
      (errorWalletRecord env address walletId e).tokens = [] ∧
      (errorWalletRecord env address walletId e).error_message = some e) ∧
    (∀ (envOf : String → Env) (wallets : List WalletRef) (db0 : DB),
      envOf address = env → WalletRef.mk walletId address ∈ wallets →
      (processWalletBatch (pipelineRun envOf) wallets 5 db0).1.successful +
        (processWalletBatch (pipelineRun envOf) wallets 5 db0).1.failed
        = wallets.length ∧
      (address ++ ": " ++ e)
        ∈ (processWalletBatch (pipelineRun envOf) wallets 5 db0).1.errors) := by
  constructor
  · refine ⟨?_, rfl, rfl, rfl, rfl⟩
    rcases hb : env.rpcBalance with eb | lam <;>
      rcases ht : env.rpcTokenAccounts with et | accs <;>
        simp only [getWalletData, getSOLBalance, getTokenAccounts, hb, ht] at hfail ⊢
    · simp only [Except.error.injEq] at hfail
      cases hfail
      exact findWalletBalance_upsert_error _ env address walletId _
    · simp only [Except.error.injEq] at hfail
      cases hfail
      exact findWalletBalance_upsert_error _ env address walletId _
    · simp only [Except.error.injEq] at hfail
      cases hfail
      exact findWalletBalance_upsert_error _ env address walletId _
    · rw [getTokenPrices_result_eq] at hfail ⊢
      rcases hres : getTokenPricesResult env
          (List.map TokenAccount.mint (fetchedTokens accs)) with ep | prices
      · rw [hres] at hfail
        simp only [Except.error.injEq] at hfail
        cases hfail
        exact findWalletBalance_upsert_error _ env address walletId _
      · rw [hres] at hfail
        simp at hfail
  · intro envOf wallets db0 henv hmem
    have hout : ∀ w db2, (pipelineRun envOf w db2).1 = pipelineOutcome envOf w :=
      fun w db2 => pipelineRun_fst envOf w db2
    have hc3 := processWalletBatch_counts (pipelineRun envOf) (pipelineOutcome envOf)
      wallets 5 db0 (by norm_num) hout
    refine ⟨hc3.1, ?_⟩
    rw [hc3.2]
    refine List.mem_filterMap.mpr ⟨WalletRef.mk walletId address, hmem, ?_⟩
    have hfo : pipelineOutcome envOf (WalletRef.mk walletId address)
        = Except.error e := by
      rw [pipelineOutcome]
      simp only [henv]
      rw [getWalletData_fst_ignores_db env address walletId emptyDB db, hfail]
      rfl
    simp only [errEntry, hfo]

/-- An environment where every upstream call fails. -/
def c4Env : Env :=
  { now := 7
    latency := 3
    rpcBalance := Except.error "RPC down"
    rpcTokenAccounts := Except.error "RPC down"
    bulkCatalog := Except.error "down"
    perMint := fun _ => Except.error "down"
    priceQuote := fun _ => Except.error "down" }

/-- Witness for C4: a wallet whose balance RPC fails ends with an error
record (status "error", balance 0, no holdings, message recorded) and the
error re-raised. -/
theorem c4_pipeline_failure_witness :
    (getWalletData c4Env "addr1" "id1" emptyDB).1 = Except.error "RPC down" ∧
    (getWalletData c4Env "addr1" "id1" emptyDB).2.findWalletBalance "addr1"
      = some (errorWalletRecord c4Env "addr1" "id1" "RPC down") ∧
    (errorWalletRecord c4Env "addr1" "id1" "RPC down").fetch_status = "error" := by
  have h := c4_pipeline_failure c4Env "addr1" "id1" emptyDB "RPC down" rfl
  exact ⟨rfl, h.1.1, rfl⟩

/-! ## C5: metadata resolver -/

/-- C5: for a non-empty mint list, when the bulk catalog fetch succeeds the
resolver returns an entry for every requested mint — the catalog's metadata
when the mint is listed, the "Unknown" / "Unknown Token" sentinel (no
image) when it is not — with no delays and no error; when the bulk fetch
fails it falls back to per-mint lookups in chunks of 10 with one 100 ms
delay between consecutive chunks (chunk count minus one sleeps), and
returns exactly the requested mints whose individual lookups succeeded, in
order, omitting the failed ones, again raising no error (the function is
total by construction). -/
theorem c5_metadata_resolver (env : Env) (mints : List String)
    (hne : mints ≠ []) :
    (∀ cat, env.bulkCatalog = Except.ok cat →
      (getTokenMetadata env mints).1
        = mints.map (fun m => (m, (tokenMapGet cat m).getD unknownMeta)) ∧
      (∀ m ∈ mints, ∃ meta, (m, meta) ∈ (getTokenMetadata env mints).1 ∧
        (tokenMapGet cat m = none → meta = unknownMeta) ∧
        (∀ t, tokenMapGet cat m = some t → meta = t)) ∧
      (getTokenMetadata env mints).2 = 0) ∧
    (∀ e, env.bulkCatalog = Except.error e →
      (getTokenMetadata env mints).1
        = mints.filterMap (fun m => (perMintResult env m).map (fun d => (m, d))) ∧
      (getTokenMetadata env mints).2 = (chunks 10 mints).length - 1) := by
  have hne0 : mints.isEmpty = false := by
    cases mints with
    | nil => exact absurd rfl hne
    | cons a t => rfl
  have hnecond : ¬ (mints.isEmpty = true) := by simp [hne0]
  constructor
  · intro cat hcat
    have hmeta : getTokenMetadata env mints
        = (mints.map (fun m => (m, (tokenMapGet cat m).getD unknownMeta)), 0) := by
      simp only [getTokenMetadata, if_neg hnecond, hcat]
    refine ⟨by rw [hmeta], ?_, by rw [hmeta]⟩
    intro m hm
    refine ⟨(tokenMapGet cat m).getD unknownMeta, ?_, ?_, ?_⟩
    · rw [hmeta]
      exact List.mem_map.mpr ⟨m, hm, rfl⟩
    · intro h0
      rw [h0]
      rfl
    · intro t h0
      rw [h0]
      rfl
  · intro e hcat
    have hmeta : getTokenMetadata env mints
        = metadataFallbackGo env (chunks 10 mints) := by
      simp only [getTokenMetadata, if_neg hnecond, hcat]
    constructor
    · rw [hmeta, metadataFallbackGo_fst env (chunks 10 mints),
        chunks_join 10 (by norm_num) mints]
    · rw [hmeta, metadataFallbackGo_snd]

/-- An environment whose bulk catalog endpoint is down and whose per-mint
endpoint resolves "X" but fails "Y". -/
def c5Env : Env :=
  { now := 0
    latency := 0
    rpcBalance := Except.ok 0
    rpcTokenAccounts := Except.ok []
    bulkCatalog := Except.error "bulk endpoint down"
    perMint := fun m =>
      if m = "X" then
        Except.ok { symbol := some "XS", name := some "X Token", logoURI := none }
      else Except.error "404"
    priceQuote := fun _ => Except.error "down" }

/-- Witness for C5 at the spec's scenario: mints [X, Y] with the bulk fetch
failing resolve to the partial result containing only X (whose lookup
succeeded), Y omitted, with no error and (both mints fit one chunk of 10)
no inter-chunk delay. -/
theorem c5_metadata_resolver_witness :
    (getTokenMetadata c5Env ["X", "Y"]).1
      = [("X", { symbol := "XS", name := "X Token", logoURI := none })] ∧
    (getTokenMetadata c5Env ["X", "Y"]).2 = 0 := by
  have h := (c5_metadata_resolver c5Env ["X", "Y"] (by decide)).2
    "bulk endpoint down" rfl
  refine ⟨?_, ?_⟩
  · rw [h.1]
    rfl
  · rw [h.2]
    rfl

/-! ## C6: price resolution -/

theorem priceEntryStep_foldl_preserve (env : Env) (metadata : List (String × TokenMeta)) :
    ∀ (entries : List (String × Option Rat)) (acc : List (String × PriceEntry) × DB)
      (m : String), (∀ q ∈ entries, q.1 ≠ m) →
      ((entries.foldl (priceEntryStep env metadata) acc).2).findTokenPrice m
        = acc.2.findTokenPrice m := by
  intro entries
  induction entries with
  | nil => intro acc m _; rfl
  | cons e rest ih =>
    intro acc m hne
    rw [List.foldl_cons]
    rw [ih (priceEntryStep env metadata acc e) m
      (fun q hq => hne q (List.mem_cons_of_mem e hq))]
    exact DB.findTokenPrice_upsert_other acc.2 (tokenPriceRow env metadata e) m
      (hne e (List.mem_cons_self e rest))

theorem priceEntryStep_foldl_find (env : Env) (metadata : List (String × TokenMeta)) :
    ∀ (entries : List (String × Option Rat)) (acc : List (String × PriceEntry) × DB),
      (entries.map Prod.fst).Nodup →
      ∀ p ∈ entries,
        ((entries.foldl (priceEntryStep env metadata) acc).2).findTokenPrice p.1
          = some (tokenPriceRow env metadata p) := by
  intro entries
  induction entries with
  | nil => intro acc _ p hp; exact absurd hp (List.not_mem_nil p)
  | cons e rest ih =>
    intro acc hnd p hp
    simp only [List.map_cons, List.nodup_cons] at hnd
    obtain ⟨hnotin, hnd2⟩ := hnd
    rw [List.foldl_cons]
    rcases List.mem_cons.mp hp with h | h
    · subst h
      rw [priceEntryStep_foldl_preserve env metadata rest
        (priceEntryStep env metadata acc p) p.1
        (fun q hq heq => hnotin (heq ▸ List.mem_map_of_mem Prod.fst hq))]
      exact DB.findTokenPrice_upsert_self acc.2 (tokenPriceRow env metadata p)
    · exact ih (priceEntryStep env metadata acc e) hnd2 p h

/-- C6: price resolution for a non-empty mint list issues exactly one query
to the price provider whose id list is the requested mints deduplicated with
the native SOL mint always included (so every query contains the SOL mint,
all requested mints, and no duplicates); on provider success every entry of
the response is upserted into the price table keyed by its mint with price
`parseFloat(price || "0")`, source tag "jupiter" and the fresh timestamp;
on provider failure an error audit row is appended and the error is
re-raised to the caller. -/
theorem c6_price_resolution (env : Env) (mints : List String) (db : DB)
    (hne : mints ≠ []) :
    (getTokenPrices env mints db).queries = [dedupFirst (mints ++ [SOL_MINT])] ∧
    (∀ q ∈ (getTokenPrices env mints db).queries,
      SOL_MINT ∈ q ∧ (∀ m ∈ mints, m ∈ q) ∧ q.Nodup) ∧
    (∀ entries, env.priceQuote (dedupFirst (mints ++ [SOL_MINT])) = Except.ok entries →
      (entries.map Prod.fst).Nodup →
      ∀ p ∈ entries, ∃ row : TokenPrice,
        (getTokenPrices env mints db).db.findTokenPrice p.1 = some row ∧
        row.mint = p.1 ∧ row.price = p.2.getD 0 ∧ row.source = "jupiter" ∧
        row.last_updated = env.now) ∧
    (∀ e, env.priceQuote (dedupFirst (mints ++ [SOL_MINT])) = Except.error e →
      (getTokenPrices env mints db).result = Except.error e ∧
      ∃ entry : FetchLogEntry,
        (getTokenPrices env mints db).db.fetchLogs = db.fetchLogs ++ [entry] ∧
        entry.wallet_address = "system" ∧ entry.operation = "prices" ∧
        entry.status = "error" ∧ entry.error_details = some e) := by
  have hne0 : mints.isEmpty = false := by
    cases mints with
    | nil => exact absurd rfl hne
    | cons a t => rfl
  have hnecond : ¬ (mints.isEmpty = true) := by simp [hne0]
  have hqueries : (getTokenPrices env mints db).queries
      = [dedupFirst (mints ++ [SOL_MINT])] := by
    rcases hq : env.priceQuote (dedupFirst (mints ++ [SOL_MINT])) with e | entries <;>
      simp only [getTokenPrices, if_neg hnecond, hq]
  refine ⟨hqueries, ?_, ?_, ?_⟩
  · intro q hq
    rw [hqueries] at hq
    rcases List.mem_singleton.mp hq with rfl
    refine ⟨?_, ?_, dedupFirst_nodup _⟩
    · exact (dedupFirst_mem _ _).mpr
        (List.mem_append_right mints (List.mem_singleton.mpr rfl))
    · intro m hm
      exact (dedupFirst_mem _ _).mpr (List.mem_append_left _ hm)
  · intro entries hq hnd p hp
    have hdb : (getTokenPrices env mints db).db
        = ((entries.foldl
              (priceEntryStep env
                ((getTokenMetadata env (dedupFirst (mints ++ [SOL_MINT]))).1))
              ([], db)).2).insertFetchLog
            { wallet_address := "system"
              timestamp := env.now
              operation := "prices"
              status := "success"
              error_details := none
              response_time_ms := env.latency } := by
      simp only [getTokenPrices, if_neg hnecond, hq]
    refine ⟨tokenPriceRow env
      ((getTokenMetadata env (dedupFirst (mints ++ [SOL_MINT]))).1) p,
      ?_, rfl, rfl, rfl, rfl⟩
    rw [hdb, DB.findTokenPrice_insertFetchLog]
    exact priceEntryStep_foldl_find env _ entries ([], db) hnd p hp
  · intro e hq
    have hchar : getTokenPrices env mints db
        = { result := Except.error e
            db := db.insertFetchLog
              { wallet_address := "system"
                timestamp := env.now
                operation := "prices"
                status := "error"
                error_details := some e
                response_time_ms := env.latency }
            queries := [dedupFirst (mints ++ [SOL_MINT])] } := by
      simp only [getTokenPrices, if_neg hnecond, hq]
    refine ⟨by rw [hchar], ?_⟩
    refine ⟨{ wallet_address := "system"
              timestamp := env.now
              operation := "prices"
              status := "error"
              error_details := some e
              response_time_ms := env.latency }, ?_, rfl, rfl, rfl, rfl⟩
    rw [hchar]
    rfl

/-- An environment whose price endpoint resolves M1 at $2 and SOL at $150. -/
def c6Env : Env :=
  { now := 5
    latency := 1
    rpcBalance := Except.ok 0
    rpcTokenAccounts := Except.ok []
    bulkCatalog := Except.ok []
    perMint := fun _ => Except.error "404"
    priceQuote := fun _ =>
      Except.ok [("M1", some 2), (SOL_MINT, some 150)] }

/-- Witness for C6: requesting prices for [M1] queries the provider once
with [M1, SOL] (SOL added, deduplicated) and upserts M1's resolved $2 price
with source "jupiter" and the fresh timestamp. -/
theorem c6_price_resolution_witness :
    (getTokenPrices c6Env ["M1"] emptyDB).queries = [["M1", SOL_MINT]] ∧
    (∃ row : TokenPrice,
      (getTokenPrices c6Env ["M1"] emptyDB).db.findTokenPrice "M1" = some row ∧
      row.price = 2 ∧ row.source = "jupiter" ∧ row.last_updated = 5) := by
  have h := c6_price_resolution c6Env ["M1"] emptyDB (by decide)
  constructor
  · rw [h.1]
    rfl
  · obtain ⟨row, hfind, hmint, hprice, hsrc, hts⟩ :=
      h.2.2.1 [("M1", some 2), (SOL_MINT, some 150)] rfl (by decide)
        ("M1", some 2) (List.mem_cons_self _ _)
    exact ⟨row, hfind, by rw [hprice]; rfl, hsrc, hts⟩

/-! ## C7 / C10: SOL price fallback -/

/-- An environment whose price endpoint always fails. -/
def c7Env : Env :=
  { now := 0
    latency := 0
    rpcBalance := Except.error "down"
    rpcTokenAccounts := Except.error "down"
    bulkCatalog := Except.error "down"
    perMint := fun _ => Except.error "down"
    priceQuote := fun _ => Except.error "provider down" }

/-- A cached SOL price row of $0 (reachable: `getTokenPrices` stores
`parseFloat(info.price || "0")`, which can be 0). -/
def solRowZero : TokenPrice :=
  { mint := SOL_MINT
    symbol := "SOL"
    name := "Solana"
    price := 0
    price_change_24h := none
    market_cap := none
    image_url := none
    last_updated := 0
    source := "jupiter" }

def dbZeroSol : DB :=
  { fetchLogs := [], tokenPrices := [solRowZero], walletBalances := [] }

/-- Counterexample to C7 as stated: the provider call fails and a cached
price row for the SOL mint exists with price 0, yet `getSOLPrice` returns
the hardcoded 150 — not the cached price — because `cached?.price || 150`
treats the cached 0 as falsy. -/
theorem c7_counterexample :
    dbZeroSol.findTokenPrice SOL_MINT = some solRowZero ∧
    solRowZero.price = 0 ∧
    (getSOLPrice c7Env dbZeroSol).1 = 150 ∧
    (getSOLPrice c7Env dbZeroSol).1 ≠ solRowZero.price := by
  refine ⟨rfl, rfl, rfl, ?_⟩
  have h150 : (getSOLPrice c7Env dbZeroSol).1 = 150 := rfl
  rw [h150]
  norm_num [solRowZero]

/-- C7 (amended): when the price-provider call for the native currency
fails, `getSOLPrice` does not raise (it is total by construction); if a
cached SOL price exists and is non-zero — e.g. $150 — it returns that
cached price unchanged.  (As stated the claim fails for a cached price of
exactly 0, which JS `cached?.price || 150` treats as falsy and replaces
with the 150 default; see the counterexample.) -/
theorem c7_sol_price_cached (env : Env) (db : DB) (cached : TokenPrice)
    (hfail : ∃ e, env.priceQuote [SOL_MINT] = Except.error e)
    (hc : db.findTokenPrice SOL_MINT = some cached)
    (hnz : cached.price ≠ 0) :
    getSOLPrice env db = (cached.price, db) := by
  obtain ⟨e, he⟩ := hfail
  simp only [getSOLPrice, he, hc, if_neg hnz]

/-- A cached SOL price row of $150. -/
def solRow150 : TokenPrice :=
  { mint := SOL_MINT
    symbol := "SOL"
    name := "Solana"
    price := 150
    price_change_24h := none
    market_cap := none
    image_url := none
    last_updated := 0
    source := "jupiter" }

def dbSol150 : DB :=
  { fetchLogs := [], tokenPrices := [solRow150], walletBalances := [] }

/-- Witness for C7 at the spec's scenario: provider down, cached $150 →
returns 150, no exception, cache untouched. -/
theorem c7_sol_price_cached_witness :
    getSOLPrice c7Env dbSol150 = (150, dbSol150) := by
  have h := c7_sol_price_cached c7Env dbSol150 solRow150
    ⟨"provider down", rfl⟩ rfl (by norm_num [solRow150])
  exact h

/-- C10: `getSOLPrice` is total — its catch branch never re-raises, and
when the provider call for the native currency fails while the store holds
no cached SOL price (or a cached price of 0), it returns the hardcoded
fallback constant 150, leaving the cache unchanged. -/
theorem c10_sol_price_default (env : Env) (db : DB)
    (hfail : ∃ e, env.priceQuote [SOL_MINT] = Except.error e)
    (hcache : db.findTokenPrice SOL_MINT = none ∨
      ∃ cached, db.findTokenPrice SOL_MINT = some cached ∧ cached.price = 0) :
    (getSOLPrice env db).1 = 150 ∧ (getSOLPrice env db).2 = db := by
  obtain ⟨e, he⟩ := hfail
  rcases hcache with hc | ⟨cached, hc, hz⟩
  · simp [getSOLPrice, he, hc]
  · simp [getSOLPrice, he, hc, hz]

/-- Witness for C10: provider down and an empty cache → the hardcoded 150. -/
theorem c10_sol_price_default_witness :
    (getSOLPrice c7Env emptyDB).1 = 150 ∧ (getSOLPrice c7Env emptyDB).2 = emptyDB :=
  c10_sol_price_default c7Env emptyDB ⟨"provider down", rfl⟩ (Or.inl rfl)

/-! ## C8: valuation on the success path -/

theorem foldl_add_getD (l : List TokenAccount) :
    ∀ a : Rat, l.foldl (fun s t => s + t.usdValue.getD 0) a
      = a + (l.map (fun t => t.usdValue.getD 0)).sum := by
  induction l with
  | nil => intro a; simp
  | cons t rest ih =>
    intro a
    rw [List.foldl_cons, ih]
    simp only [List.map_cons, List.sum_cons]
    ring

/-- C8: on the success path, `getWalletData` returns a `WalletData` whose
holdings are the fetched token accounts enhanced with the resolver's symbol
and name (for any mint the metadata map resolves, the holding carries that
symbol/name), whose per-holding `usdValue` is `amount * price` for mints the
price map resolves and 0 otherwise, and whose `totalUsdValue` is exactly
the sum of the holdings' USD values — the native balance is returned in the
separate `solBalance` field and never added to `totalUsdValue`. -/
theorem c8_wallet_valuation (env : Env) (address walletId : String) (db : DB)
    (lam : Int) (accs : List ParsedTokenAccount)
    (prices : List (String × PriceEntry))
    (hb : env.rpcBalance = Except.ok lam)
    (ht : env.rpcTokenAccounts = Except.ok accs)
    (hp : getTokenPricesResult env ((fetchedTokens accs).map TokenAccount.mint)
      = Except.ok prices) :
    ∃ wd : WalletData,
      (getWalletData env address walletId db).1 = Except.ok wd ∧
      wd.solBalance = (lam : Rat) / 1000000000 ∧
      wd.tokens = (fetchedTokens accs).map
        (enhanceToken
          ((getTokenMetadata env ((fetchedTokens accs).map TokenAccount.mint)).1)
          prices) ∧
      wd.totalUsdValue = (wd.tokens.map (fun t => t.usdValue.getD 0)).sum ∧
      (∀ t ∈ fetchedTokens accs,
        (enhanceToken
            ((getTokenMetadata env ((fetchedTokens accs).map TokenAccount.mint)).1)
            prices t).usdValue
          = some (match assocGet prices t.mint with
                  | some p => t.amount * p.price
                  | none => 0) ∧
        (∀ m, assocGet
            ((getTokenMetadata env ((fetchedTokens accs).map TokenAccount.mint)).1)
            t.mint = some m →
          (enhanceToken
              ((getTokenMetadata env ((fetchedTokens accs).map TokenAccount.mint)).1)
              prices t).symbol = some m.symbol ∧
          (enhanceToken
              ((getTokenMetadata env ((fetchedTokens accs).map TokenAccount.mint)).1)
              prices t).name = some m.name)) := by
  have h1 : (getWalletData env address walletId db).1
      = Except.ok
          { address := address
            solBalance := (lam : Rat) / 1000000000
            tokens := (fetchedTokens accs).map
              (enhanceToken
                ((getTokenMetadata env
                  ((fetchedTokens accs).map TokenAccount.mint)).1) prices)
            totalUsdValue := ((fetchedTokens accs).map
              (enhanceToken
                ((getTokenMetadata env
                  ((fetchedTokens accs).map TokenAccount.mint)).1) prices)).foldl
              (fun s t => s + t.usdValue.getD 0) 0
            lastUpdated := env.now } := by
    simp only [getWalletData, getSOLBalance, getTokenAccounts, hb, ht]
    rw [getTokenPrices_result_eq, hp]
  refine ⟨_, h1, rfl, rfl, ?_, ?_⟩
  · simpa using foldl_add_getD
      ((fetchedTokens accs).map
        (enhanceToken
          ((getTokenMetadata env ((fetchedTokens accs).map TokenAccount.mint)).1)
          prices)) 0
  · intro t htm
    refine ⟨rfl, ?_⟩
    intro m hm
    constructor
    · simp only [enhanceToken, hm]
    · simp only [enhanceToken, hm]

/-- The spec's valuation scenario: 2.5 SOL (2 500 000 000 lamports), one
holding of 100 M1 tokens, M1 catalogued as TK1 / "Token One", M1 priced at
$0.50 and SOL at $150. -/
def c8Env : Env :=
  { now := 0
    latency := 0
    rpcBalance := Except.ok 2500000000
    rpcTokenAccounts := Except.ok [{ mint := "M1", uiAmount := 100, decimals := 6 }]
    bulkCatalog := Except.ok
      [{ address := "M1", symbol := some "TK1", name := some "Token One",
         logoURI := none }]
    perMint := fun _ => Except.error "404"
    priceQuote := fun _ =>
      Except.ok [("M1", some (1 / 2)), (SOL_MINT, some 150)] }

/-- Witness for C8 at the spec's scenario: native balance 2.5 and one
holding of 100 tokens at $0.50 give `totalUsdValue = 50` (native balance
not included), with the holding carrying the resolver's symbol and name. -/
theorem c8_wallet_valuation_witness :
    ∃ wd : WalletData,
      (getWalletData c8Env "w1" "1" emptyDB).1 = Except.ok wd ∧
      wd.solBalance = 5 / 2 ∧
      wd.totalUsdValue = 50 ∧
      wd.tokens.map (fun t => t.symbol) = [some "TK1"] ∧
      wd.tokens.map (fun t => t.name) = [some "Token One"] := by
  obtain ⟨wd, h1, h2, h3, h4, h5⟩ := c8_wallet_valuation c8Env "w1" "1" emptyDB
    2500000000 [{ mint := "M1", uiAmount := 100, decimals := 6 }] _ rfl rfl rfl
  refine ⟨wd, h1, ?_, ?_, ?_, ?_⟩
  · rw [h2]
    norm_num
  · rw [h4, h3]
    simp [c8Env, fetchedTokens, enhanceToken, assocGet, getTokenMetadata,
      tokenMapGet, applyDefaults, unknownMeta, getTokenPricesResult,
      priceEntryStep, priceMetaOf, tokenPriceRow, dedupFirst, dedupFirstGo,
      SOL_MINT, emptyDB]
    norm_num
  · rw [h3]
    simp [c8Env, fetchedTokens, enhanceToken, assocGet, getTokenMetadata,
      tokenMapGet, applyDefaults, unknownMeta, getTokenPricesResult,
      priceEntryStep, priceMetaOf, tokenPriceRow, dedupFirst, dedupFirstGo,
      SOL_MINT, emptyDB]
  · rw [h3]
    simp [c8Env, fetchedTokens, enhanceToken, assocGet, getTokenMetadata,
      tokenMapGet, applyDefaults, unknownMeta, getTokenPricesResult,
      priceEntryStep, priceMetaOf, tokenPriceRow, dedupFirst, dedupFirstGo,
      SOL_MINT, emptyDB]

end AumTracker
